import Mathlib

/-!
# ParvusServer: a shallow embedding of the request-handling core

This file embeds the request-handling core of the `ParvusServer` TypeScript
class (a small static-site development server) and proves properties of it.

Strings are modelled as `List Char` (written with `String.data` on literals).
External collaborators (the JS regular-expression engine, the JSDOM HTML
parser, the filesystem) appear as explicitly quantified parameters or as
abstract inputs; everything the TypeScript source itself computes is
translated into executable Lean definitions.

The continuation object produced by `generateNext` is imported from the
module `./middleware`, whose source is not part of the repository snapshot;
its reset/invoke/status behaviour is modelled from the specification of the
dispatch protocol (reset sets the per-iteration flag to "not invoked";
invoking the continuation sets it; `status()` reports it).
-/

namespace ParvusServer

/-! ## Request dispatch (`createServer` request callback)

A middleware handler is opaque async code; per request, the dispatcher
observes only (a) whether the handler invoked the continuation before it
completed or failed, (b) whether it raised / rejected (the rejection is
caught with `.catch(console.error)`), and (c) any response writing it did.
`HandlerRun` records exactly these observables for one handler on one
request, so quantifying over `HandlerRun` quantifies over all possible
handler behaviours. -/

structure HandlerRun where
  /-- the continuation flag at the moment the handler settles:
  `true` iff the handler invoked the continuation (`next()`) at some point
  before completing or failing. -/
  callsNext : Bool
  /-- the handler raised or rejected; the dispatcher catches and logs it. -/
  throws : Bool
  /-- the handler ended the response (`res.end`), leaving it sent. -/
  sends : Bool
deriving DecidableEq, Repr

/-- Outcome of dispatching one request. -/
structure DispatchOutcome where
  /-- the matched handlers that actually ran, in order. -/
  executed : List HandlerRun
  /-- the handlers whose failure was logged by `.catch(console.error)`. -/
  logged : List HandlerRun
  /-- the fallthrough: `defaultHandler` (the static file resolver) ran. -/
  defaultInvoked : Bool
deriving DecidableEq, Repr

/-- The `for (let middleware of matching)` loop: each iteration resets the
continuation flag, runs the handler (errors caught and logged), and breaks
when the flag is still unset (`next.status() === false`).  Returns the
handlers that ran and the final value of the continuation flag (`true` when
the loop ran to completion with every handler invoking the continuation;
for an empty list the flag is never consulted by the caller). -/
def runChain : List HandlerRun → List HandlerRun × Bool
  | [] => ([], true)
  | h :: rest =>
    if h.callsNext then
      let r := runChain rest
      (h :: r.1, r.2)
    else ([h], false)

/-- The request callback of `createServer`, after the matching step: run the
chain, then `if (matching.length === 0 || next.status()) await this.defaultHandler(...)`. -/
def dispatch (matching : List HandlerRun) : DispatchOutcome :=
  let r := runChain matching
  { executed := r.1
    logged := r.1.filter (fun h => h.throws)
    defaultInvoked := matching.isEmpty || r.2 }

/-- A compiled route pattern (`addMiddleware`): either the literal
match-everything regular expression `/[\s\S]*/`, or a regular expression
built from a body and a (deduplicated) flag string by the underlying
engine. -/
inductive Pattern where
  | matchAll : Pattern
  | compiled (body : List Char) (flags : List Char) : Pattern
deriving DecidableEq, Repr

/-- `pattern.test(url)`.  The semantics of an arbitrary compiled regular
expression is the engine's business and is passed in abstractly as `eng`;
the literal `/[\s\S]*/` accepts every string (the `*` permits an empty
match at position 0), which is the one concrete fact the dispatcher's
catch-all route relies on. -/
def patternTest (eng : List Char → List Char → List Char → Bool) :
    Pattern → List Char → Bool
  | .matchAll, _ => true
  | .compiled body flags, url => eng body flags url

/-- A registered middleware entry: compiled pattern plus the handler's
observable behaviour on the request under consideration. -/
structure Mw where
  pattern : Pattern
  run : HandlerRun
deriving DecidableEq, Repr

/-- The full request callback: filter the registry by
`x.pattern.test(req.url)`, keep the handlers, dispatch. -/
def handleRequest (eng : List Char → List Char → List Char → Bool)
    (mws : List Mw) (url : List Char) : DispatchOutcome :=
  dispatch ((mws.filter (fun m => patternTest eng m.pattern url)).map (fun m => m.run))

/-! ## Live-reload channel (`io.on('connection', ...)` and `refreshBrowser`) -/

/-- State owned by the live-reload channel: the `connectedBefore` flag and a
count of reload broadcasts emitted so far (each `io.emit('refresh')`). -/
structure ChannelState where
  connectedBefore : Bool
  broadcasts : Nat
deriving DecidableEq, Repr

/-- Events the channel reacts to: a client connecting, a client
disconnecting (logged only), and a manual `refreshBrowser()` call. -/
inductive ChannelEvent where
  | connect : ChannelEvent
  | disconnect : ChannelEvent
  | manualReload : ChannelEvent
deriving DecidableEq, Repr

/-- One step of the channel: on `connection`, if no client has ever
connected, broadcast a reload and set the flag; otherwise only log.
`disconnect` only logs.  `refreshBrowser` broadcasts unconditionally. -/
def channelStep (s : ChannelState) : ChannelEvent → ChannelState
  | .connect =>
    if s.connectedBefore then s
    else { connectedBefore := true, broadcasts := s.broadcasts + 1 }
  | .disconnect => s
  | .manualReload => { s with broadcasts := s.broadcasts + 1 }

/-- The channel state after a sequence of events, starting from the freshly
constructed state (`connectedBefore = false`, nothing broadcast). -/
def channelRun (events : List ChannelEvent) : ChannelState :=
  events.foldl channelStep { connectedBefore := false, broadcasts := 0 }

/-! ## MIME types and the merge (`mergedMimeTypes`) -/

structure MimeType where
  type : List Char
  name : List Char
  extensions : List (List Char)
deriving DecidableEq, Repr

/-- The body of the map inside `mergedMimeTypes`: if the additions contain
an entry of equal `type` (`find` takes the first), append its extensions to
the base entry's; otherwise keep the base entry unchanged. -/
def mergeEntry (additions : List MimeType) (item1 : MimeType) : MimeType :=
  match additions.find? (fun item => item.type = item1.type) with
  | some item2 => { item1 with extensions := item1.extensions ++ item2.extensions }
  | none => item1

/-- `mergedMimeTypes(mimeTypes)`: map over the base table (the argument,
read from `mime-types.json`), merging in `this.mimeTypes` (the
developer-supplied additions) entry by entry. -/
def mergedMimeTypes (additions base : List MimeType) : List MimeType :=
  base.map (mergeEntry additions)

/-! ## Route compilation (`addMiddleware`'s `stringToRegex`)

`stringToRegex` matches the route against the anchored regular expression
`^([\/~@;%#'])(.*?)\1([gimsuy]*)$`: a delimiter from a fixed punctuation
set, a lazily-matched body, the same delimiter again, then flag letters.
In the engine, `.` does not match line terminators, so the body of a
delimited route cannot contain one; the lazy `.*?` together with the
anchors selects the split with the shortest body for which the suffix
consists of flag letters only (such a split is in fact unique, because no
delimiter character is a flag letter).  On a match, the flags are
deduplicated keeping first occurrences; on no match the whole string
becomes the regular expression body with no flags. -/

/-- The delimiter set of `stringToRegex`: the characters of the
character class `[\/~@;%#']` (apostrophe written by code point). -/
def delims : List Char := ['/', '~', '@', ';', '%', '#', Char.ofNat 39]

/-- The flag letters accepted by `stringToRegex`: `[gimsuy]`. -/
def flagChars : List Char := ['g', 'i', 'm', 's', 'u', 'y']

/-- JavaScript line terminators, which `.` does not match. -/
def isLineTerm (c : Char) : Bool :=
  c = '\n' || c = '\r' || c = Char.ofNat 0x2028 || c = Char.ofNat 0x2029

/-- The lazy body match: scanning the text after the opening delimiter,
find the shortest prefix (containing no line terminator) that is followed
by the delimiter `d` and then by flag letters only; return that prefix and
the flag suffix, or `none` when the overall pattern cannot match. -/
def splitBody (d : Char) : List Char → Option (List Char × List Char)
  | [] => none
  | c :: rest =>
    if c = d && rest.all (fun f => decide (f ∈ flagChars)) then some ([], rest)
    else if isLineTerm c then none
    else (splitBody d rest).map (fun p => (c :: p.1, p.2))

/-- Flag deduplication,
`matches[3].split('').filter((i, p, k) => k.indexOf(i) === p).join('')`:
keep the first occurrence of each character, in order.  `seen` accumulates
the characters already emitted. -/
def dedupAux (seen : List Char) : List Char → List Char
  | [] => []
  | c :: rest =>
    if c ∈ seen then dedupAux seen rest else c :: dedupAux (c :: seen) rest

/-- Deduplicate a flag string, keeping first occurrences in order. -/
def dedupFirst (l : List Char) : List Char := dedupAux [] l

/-- Route compilation as performed at registration time by
`addMiddleware`: `'*'` gives the literal `/[\s\S]*/`; any other string goes
through `stringToRegex`.  Constructing a `RegExp` can throw a
`SyntaxError` when its body is rejected by the engine; the engine's
notion of validity is passed in abstractly as the predicate `valid`
(the deduplicated flags are always well-formed, so only the body can be
rejected). -/
def compileRoute (valid : List Char → Bool) (route : List Char) :
    Except Unit Pattern :=
  if route = ['*'] then .ok .matchAll
  else
    match route with
    | [] => if valid [] then .ok (.compiled [] []) else .error ()
    | d :: rest =>
      if d ∈ delims then
        match splitBody d rest with
        | some p =>
          if valid p.1 then .ok (.compiled p.1 (dedupFirst p.2)) else .error ()
        | none => if valid route then .ok (.compiled route []) else .error ()
      else if valid route then .ok (.compiled route []) else .error ()

/-- The body string that route compilation hands to the engine (the only
string whose rejection can make registration fail): the delimited body when
the delimited form matches, otherwise the whole route. -/
def routeBody (route : List Char) : List Char :=
  match route with
  | [] => []
  | d :: rest =>
    if d ∈ delims then
      match splitBody d rest with
      | some p => p.1
      | none => route
    else route

/-! ## Server construction (`constructor`) and registration (`addMiddleware`) -/

/-- One entry of `Config.middlewares` (the `Stack` type of `./middleware`):
a handler and an optional route spec (when absent, `addMiddleware`'s
declared default `'*'` applies). -/
structure StackEntry where
  middleware : HandlerRun
  route : Option (List Char)
deriving DecidableEq, Repr

/-- The construction config.  Every field is optional in TypeScript;
`none` models an omitted (`undefined`) field. -/
structure Config where
  host : Option (List Char)
  port : Option Nat
  subfolder : Option (List Char)
  middlewares : Option (List StackEntry)
  directory : Option (List Char)
  additionalMimeTypes : Option (List MimeType)
deriving DecidableEq, Repr

/-- The fields of a constructed `ParvusServer` relevant to this
development.  `none` models a field left `undefined` (never assigned). -/
structure ServerState where
  host : Option (List Char)
  port : Option Nat
  directory : Option (List Char)
  subfolder : Option (List Char)
  mimeTypes : Option (List MimeType)
  middlewares : List Mw
  connectedBefore : Bool
deriving DecidableEq, Repr

/-- `x || default` for an optional string config field: `undefined` and the
empty string are falsy. -/
def strDefault (o : Option (List Char)) (d : List Char) : List Char :=
  match o with
  | some s => if s = [] then d else s
  | none => d

/-- `x || default` for an optional numeric config field: `undefined` and
`0` are falsy (`NaN`, the one other falsy number, is not modelled). -/
def natDefault (o : Option Nat) (d : Nat) : Nat :=
  match o with
  | some n => if n = 0 then d else n
  | none => d

/-- `addMiddleware(middleware, route = '*')`: compile the route (a thrown
`SyntaxError` propagates to the caller and nothing is pushed), then push
`{pattern, middleware}` onto the end of the middleware list. -/
def addMiddleware (valid : List Char → Bool) (st : ServerState)
    (mw : HandlerRun) (routeArg : Option (List Char)) :
    Except Unit ServerState :=
  match compileRoute valid (routeArg.getD ['*']) with
  | .error e => .error e
  | .ok p => .ok { st with middlewares := st.middlewares ++ [⟨p, mw⟩] }

/-- The constructor.  With no config argument the guarded block is
skipped entirely: `host`, `port`, `directory`, `subfolder` and `mimeTypes`
are never assigned (only the field initializers `middlewares = []` and
`connectedBefore = false` run).  With a config, each of host/port/directory
falls back to its default on a falsy value, `subfolder` is copied as-is,
the supplied middlewares are registered through `addMiddleware` (whose
exceptions propagate), and `mimeTypes` is set to the supplied additions or
`[]`. -/
def mkServer (valid : List Char → Bool) (config : Option Config) :
    Except Unit ServerState :=
  let base : ServerState :=
    { host := none, port := none, directory := none, subfolder := none
      mimeTypes := none, middlewares := [], connectedBefore := false }
  match config with
  | none => .ok base
  | some c =>
    let st0 : ServerState :=
      { base with
        host := some (strDefault c.host ("localhost".data))
        port := some (natDefault c.port 62295)
        directory := some (strDefault c.directory ("site".data))
        subfolder := c.subfolder }
    Except.map (fun st1 => { st1 with mimeTypes := some (c.additionalMimeTypes.getD []) })
      ((c.middlewares.getD []).foldlM
        (fun s x => addMiddleware valid s x.middleware x.route) st0)

/-! ## The filesystem boundary and path helpers (`defaultHandler`) -/

/-- What `fs.stat` can find at a path: a regular file with contents, or a
directory.  (`fs.stat` succeeds on both; `fs.readFile` succeeds only on the
former and rejects with `EISDIR` on the latter.) -/
inductive FsEntry where
  | file (contents : List Char) : FsEntry
  | dir : FsEntry
deriving DecidableEq, Repr

/-- The filesystem as a finite path → entry map. -/
def lookupFs (fs : List (List Char × FsEntry)) (p : List Char) : Option FsEntry :=
  (fs.find? (fun e => e.1 = p)).map (fun e => e.2)

/-- `s.replace(sub, '')` for a string `sub`: remove the first (leftmost)
occurrence of `sub`, leave `s` unchanged when it does not occur. -/
def replaceFirst : List Char → List Char → List Char
  | [], _ => []
  | c :: rest, sub =>
    if sub.isPrefixOf (c :: rest) then (c :: rest).drop sub.length
    else c :: replaceFirst rest sub

/-- `path.join(a, b)` for the forms `defaultHandler` produces: an empty
segment is ignored, and the single slash boundary is normalized (`..`
segment resolution is not modelled; no claim depends on it since the
filesystem map is abstract). -/
def joinPath (a b : List Char) : List Char :=
  if a = [] then b
  else if b = [] then a
  else (a.reverse.dropWhile (fun c => c = '/')).reverse
       ++ '/' :: b.dropWhile (fun c => c = '/')

/-- `path.extname(url)`: from the last path segment, the part from the
last `.` to the end; empty when the segment has no `.` past its first
character. -/
def extnameList (url : List Char) : List Char :=
  let base := (url.reverse.takeWhile (fun c => c ≠ '/')).reverse
  let afterDot := (base.reverse.takeWhile (fun c => c ≠ '.')).reverse
  if '.' ∈ base.drop 1 then '.' :: afterDot else []

/-- `path.extname(url).replace('.', '')`: the extension without its dot. -/
def extOf (url : List Char) : List Char := replaceFirst (extnameList url) ['.']

/-- Steps 1–2 of `defaultHandler`: append `index.html` to a URL path ending
in `/`; when a subfolder is configured (and truthy), delete its first
textual occurrence from both the directory string and the URL path.
Returns the adjusted `(directory, url)` pair. -/
def resolvedParts (subfolder : Option (List Char)) (directory pathname : List Char) :
    List Char × List Char :=
  let url := if pathname.getLast? = some '/' then pathname ++ "index.html".data
             else pathname
  match subfolder with
  | some sub =>
    if sub = [] then (directory, url)
    else (replaceFirst directory sub, replaceFirst url sub)
  | none => (directory, url)

/-- The URL path as `defaultHandler` uses it after adjustment (for the
extension lookup and the 500 page). -/
def resolvedUrl (subfolder : Option (List Char)) (directory pathname : List Char) :
    List Char :=
  (resolvedParts subfolder directory pathname).2

/-- The candidate filesystem path: `path.join(directory, url)` after the
adjustments. -/
def candidatePath (subfolder : Option (List Char)) (directory pathname : List Char) :
    List Char :=
  joinPath (resolvedParts subfolder directory pathname).1
           (resolvedParts subfolder directory pathname).2

/-- MIME resolution of step 5: the `type` of the first table entry whose
extension list contains the URL's extension; `text/html` when there is no
such entry or its `type` string is falsy. -/
def resolveMime (mimes : List MimeType) (url : List Char) : List Char :=
  match (mimes.find? (fun x => extOf url ∈ x.extensions)).map (fun x => x.type) with
  | some t => if t = [] then "text/html".data else t
  | none => "text/html".data

/-! ## HTML documents and `socketInjection`

JSDOM is an external collaborator: parsing a byte string into a document
and serializing one back are abstract at this boundary (`parse` is a
parameter of `defaultHandler`; `serializeNode` below is a plain printer
standing in for `dom.serialize()`).  What the source itself does —
`querySelector('body')`, creating the two script elements, `appendChild` —
is modelled on the document tree. -/

/-- An HTML document node: a text node, or an element with a tag, an
attribute list, and children. -/
inductive Node where
  | text (s : List Char) : Node
  | elem (tag : List Char) (attrs : List (List Char × List Char)) (children : List Node) : Node

def bodyTag : List Char := "body".data

mutual

/-- Append `ns` to the children of the first `body` element in tree order
(the element `querySelector('body')` returns), leaving everything else
unchanged; `none` when the tree has no `body` element (then
`body.appendChild` would throw a `TypeError` on the `null`). -/
def appendFirstBody (ns : List Node) : Node → Option Node
  | .text _ => none
  | .elem tag attrs children =>
    if tag = bodyTag then some (.elem tag attrs (children ++ ns))
    else
      match appendFirstBodyL ns children with
      | some children2 => some (.elem tag attrs children2)
      | none => none

def appendFirstBodyL (ns : List Node) : List Node → Option (List Node)
  | [] => none
  | c :: rest =>
    match appendFirstBody ns c with
    | some c2 => some (c2 :: rest)
    | none =>
      match appendFirstBodyL ns rest with
      | some rest2 => some (c :: rest2)
      | none => none

end

mutual

/-- Whether a tree contains a `body` element (whether
`querySelector('body')` finds one). -/
def hasBody : Node → Bool
  | .text _ => false
  | .elem tag _ children => tag = bodyTag || hasBodyL children

def hasBodyL : List Node → Bool
  | [] => false
  | c :: rest => hasBody c || hasBodyL rest

end

/-- Attribute serialization for the plain printer. -/
def serializeAttrs (attrs : List (List Char × List Char)) : List Char :=
  attrs.foldl (fun acc a => acc ++ ' ' :: a.1 ++ '=' :: '"' :: a.2 ++ ['"']) []

mutual

/-- A plain HTML printer standing in for `dom.serialize()`. -/
def serializeNode : Node → List Char
  | .text s => s
  | .elem tag attrs children =>
    '<' :: tag ++ serializeAttrs attrs ++ '>' :: serializeL children
      ++ '<' :: '/' :: tag ++ ['>']

def serializeL : List Node → List Char
  | [] => []
  | c :: rest => serializeNode c ++ serializeL rest

end

/-- Apostrophe, written by code point. -/
def apos : Char := Char.ofNat 39

/-- The inline reload-subscription script text,
`const socket = io();socket.on('refresh', () => document.location.reload());`. -/
def reloadScriptText : List Char :=
  "const socket = io();socket.on(".data ++ [apos] ++ "refresh".data ++ [apos]
    ++ ", () => document.location.reload());".data

/-- The script element loading the live-reload client library:
`script.src = '/socket.io/socket.io.js'; script.type = 'text/javascript'`. -/
def socketIoScript : Node :=
  .elem ("script".data)
    [("src".data, "/socket.io/socket.io.js".data),
     ("type".data, "text/javascript".data)] []

/-- The inline script element subscribing to the reload signal. -/
def reloadScript : Node :=
  .elem ("script".data) [("type".data, "text/javascript".data)]
    [.text reloadScriptText]

/-- The two elements `socketInjection` appends, in appendChild order. -/
def injectedScripts : List Node := [socketIoScript, reloadScript]

/-- `socketInjection(html)` on the parsed document: append the two script
elements to the body; `none` models the thrown `TypeError` when no body
element is located. -/
def socketInjection (doc : Node) : Option Node :=
  appendFirstBody injectedScripts doc

/-! ## `defaultHandler` (the static file resolver) -/

/-- An HTTP response as `defaultHandler` leaves it. -/
structure HttpResponse where
  status : Nat
  contentType : Option (List Char)
  body : List Char
deriving DecidableEq, Repr

/-- The fixed 404 document (the template literal of the source,
whitespace included). -/
def notFoundHtml : List Char :=
  ("\n            <html lang=\"en\">\n              <body style=\"background-color: #171717;color:white;\">\n                <h3>Page not found</h3>\n              </body>\n            </html>").data

/-- The 404 response of the existence check. -/
def notFoundResponse : HttpResponse :=
  { status := 404, contentType := some ("text/html".data), body := notFoundHtml }

/-- The 500 page of the outer catch, naming the requested URL and the
stringified exception. -/
def serverErrorResponse (url ex : List Char) : HttpResponse :=
  { status := 500
    contentType := some ("text/html".data)
    body := ("<html lang=\"en\"><body style=\"background-color: #171717;color:white;\"><h1>Error</h1><p>Failed to load requested file at ").data
      ++ url ++ ("</p><p><pre>").data ++ ex ++ ("</pre></p></body></html>").data }

/-- Modelled stringification of the exception `fs.readFile` rejects with
when the path names a directory. -/
def eisdirMessage : List Char :=
  ("Error: EISDIR: illegal operation on a directory, read").data

/-- `defaultHandler(req, res, directory?, addSocket = true)`, with the
request reduced to its parsed URL path (`new URL(req.url, ...).pathname`
is the URL library's business) and JSDOM parsing abstract as `parse`:
adjust the path, stat the candidate; no entry → the fixed 404; a directory
→ `readFile` rejects and the outer catch produces the 500 page; a file →
resolve the MIME type and serve 200, attempting script injection first
when the type is `text/html` and `addSocket` is set, serving the
unmodified contents when injection throws. -/
def defaultHandler (parse : List Char → Node) (fs : List (List Char × FsEntry))
    (mimes : List MimeType) (subfolder : Option (List Char))
    (directory pathname : List Char) (addSocket : Bool) : HttpResponse :=
  let url := resolvedUrl subfolder directory pathname
  match lookupFs fs (candidatePath subfolder directory pathname) with
  | none => notFoundResponse
  | some .dir => serverErrorResponse url eisdirMessage
  | some (.file contents) =>
    let mime := resolveMime mimes url
    if mime = "text/html".data && addSocket then
      match socketInjection (parse contents) with
      | some doc2 => { status := 200, contentType := some mime, body := serializeNode doc2 }
      | none => { status := 200, contentType := some mime, body := contents }
    else { status := 200, contentType := some mime, body := contents }

mutual

/-- Specification-side relation (following the spec's words, to be compared
with `appendFirstBody`): `BodyAppended ns doc doc2` holds when `doc2` is
`doc` with `ns` appended at the end of the children of its first `body`
element (in tree order) and every other part of the document unchanged. -/
inductive BodyAppended (ns : List Node) : Node → Node → Prop where
  | body (attrs : List (List Char × List Char)) (cs : List Node) :
      BodyAppended ns (.elem bodyTag attrs cs) (.elem bodyTag attrs (cs ++ ns))
  | elem (tag : List Char) (attrs : List (List Char × List Char))
      (cs cs2 : List Node) (hne : tag ≠ bodyTag)
      (h : BodyAppendedL ns cs cs2) :
      BodyAppended ns (.elem tag attrs cs) (.elem tag attrs cs2)

/-- `BodyAppendedL ns cs cs2`: the append happened inside the first child
of `cs` that contains a body; children before it (which contain none) and
after it are untouched. -/
inductive BodyAppendedL (ns : List Node) : List Node → List Node → Prop where
  | head (c c2 : Node) (rest : List Node) (h : BodyAppended ns c c2) :
      BodyAppendedL ns (c :: rest) (c2 :: rest)
  | tail (c : Node) (rest rest2 : List Node) (hc : hasBody c = false)
      (h : BodyAppendedL ns rest rest2) :
      BodyAppendedL ns (c :: rest) (c :: rest2)

end

/-! ## Helper lemmas -/

/-- Unfolding `runChain` past a handler that invoked the continuation. -/
theorem runChain_cons_true {h : HandlerRun} {rest : List HandlerRun}
    (hc : h.callsNext = true) :
    runChain (h :: rest) = (h :: (runChain rest).1, (runChain rest).2) := by
  simp [runChain, hc]

/-- Unfolding `runChain` at a handler that left the continuation unset. -/
theorem runChain_cons_false {h : HandlerRun} {rest : List HandlerRun}
    (hc : h.callsNext = false) :
    runChain (h :: rest) = ([h], false) := by
  simp [runChain, hc]

/-- The chain loop ends with the continuation flag unset exactly when some
executed handler left it unset (and then it is the last executed one). -/
theorem runChain_flag (ms : List HandlerRun) :
    (∃ h ∈ (runChain ms).1, h.callsNext = false) ↔ (runChain ms).2 = false := by
  induction ms with
  | nil => simp [runChain]
  | cons h rest ih =>
    rcases Bool.eq_false_or_eq_true h.callsNext with hc | hc
    · rw [runChain_cons_true hc]
      constructor
      · rintro ⟨g, hg, hgf⟩
        rcases List.mem_cons.mp hg with rfl | hg'
        · rw [hc] at hgf; cases hgf
        · exact ih.mp ⟨g, hg', hgf⟩
      · intro hflag
        obtain ⟨g, hg, hgf⟩ := ih.mpr hflag
        exact ⟨g, by simp [hg], hgf⟩
    · rw [runChain_cons_false hc]
      simp [hc]

/-- Running the chain over `pre ++ l` when every handler of `pre` invokes
the continuation: all of `pre` executes, then the run continues on `l`. -/
theorem runChain_append (pre l : List HandlerRun)
    (hpre : ∀ g ∈ pre, g.callsNext = true) :
    runChain (pre ++ l) = (pre ++ (runChain l).1, (runChain l).2) := by
  induction pre with
  | nil => simp
  | cons g pre' ih =>
    have hg : g.callsNext = true := hpre g (by simp)
    have ih' := ih (fun x hx => hpre x (by simp [hx]))
    simp [runChain, hg, ih']

/-- No delimiter character is a flag letter. -/
theorem delims_not_flag : ∀ d ∈ delims, d ∉ flagChars := by decide

/-- Completeness of the lazy body match: a genuine decomposition (body free
of line terminators, suffix made of flag letters) is found, and it is found
exactly (the closing delimiter position is unique because the flag suffix
cannot contain the delimiter). -/
theorem splitBody_complete (d : Char) (hd : d ∈ delims) :
    ∀ (body flags : List Char), (∀ c ∈ body, isLineTerm c = false) →
    (∀ c ∈ flags, c ∈ flagChars) →
    splitBody d (body ++ d :: flags) = some (body, flags) := by
  intro body
  induction body with
  | nil =>
    intro flags _ hf
    have hall : flags.all (fun f => decide (f ∈ flagChars)) = true := by
      simp only [List.all_eq_true, decide_eq_true_eq]
      exact hf
    simp [splitBody, hall]
  | cons c body' ih =>
    intro flags hb hf
    have hcl : isLineTerm c = false := hb c (by simp)
    have hrest : ((body' ++ d :: flags).all (fun f => decide (f ∈ flagChars))) = false := by
      apply List.all_eq_false.mpr
      exact ⟨d, by simp, by simpa using delims_not_flag d hd⟩
    have ih' := ih flags (fun x hx => hb x (by simp [hx])) hf
    simp [splitBody, hrest, hcl, ih']

/-- Soundness of the lazy body match: a successful split really decomposes
the text, its body contains no line terminator, and its suffix is made of
flag letters. -/
theorem splitBody_sound (d : Char) :
    ∀ (l body flags : List Char), splitBody d l = some (body, flags) →
    l = body ++ d :: flags ∧ (∀ c ∈ body, isLineTerm c = false) ∧
      (∀ c ∈ flags, c ∈ flagChars) := by
  intro l
  induction l with
  | nil => intro body flags h; simp [splitBody] at h
  | cons c rest ih =>
    intro body flags h
    unfold splitBody at h
    by_cases h1 : (c = d && rest.all fun f => decide (f ∈ flagChars)) = true
    · rw [if_pos h1] at h
      obtain ⟨hcd, hall⟩ := Bool.and_eq_true_iff.mp h1
      obtain ⟨rfl, rfl⟩ : body = [] ∧ flags = rest := by
        cases h; exact ⟨rfl, rfl⟩
      refine ⟨by simp [decide_eq_true_eq.mp hcd], by simp, ?_⟩
      intro x hx
      exact decide_eq_true_eq.mp (List.all_eq_true.mp hall x hx)
    · rw [if_neg h1] at h
      by_cases h2 : isLineTerm c = true
      · rw [if_pos h2] at h; simp at h
      · rw [if_neg h2] at h
        match hsp : splitBody d rest with
        | none => rw [hsp] at h; simp at h
        | some p =>
          rw [hsp] at h
          obtain ⟨rfl, rfl⟩ : body = c :: p.1 ∧ flags = p.2 := by
            cases h; exact ⟨rfl, rfl⟩
          obtain ⟨he, hb, hf⟩ := ih p.1 p.2 (by rw [hsp])
          refine ⟨by simp [he], ?_, hf⟩
          intro x hx
          rcases List.mem_cons.mp hx with rfl | hx'
          · exact Bool.eq_false_iff.mpr h2
          · exact hb x hx'

/-- Everything `dedupAux seen` emits avoids `seen`. -/
theorem dedupAux_not_mem_seen :
    ∀ (l seen : List Char) (x : Char), x ∈ dedupAux seen l → x ∉ seen := by
  intro l
  induction l with
  | nil => intro seen x h; simp [dedupAux] at h
  | cons c rest ih =>
    intro seen x h
    by_cases hc : c ∈ seen
    · exact ih seen x (by simpa [dedupAux, hc] using h)
    · rw [dedupAux, if_neg hc] at h
      rcases List.mem_cons.mp h with rfl | h'
      · exact hc
      · have := ih (c :: seen) x h'
        exact fun hx => this (by simp [hx])

/-- `dedupAux` emits no duplicates. -/
theorem dedupAux_nodup : ∀ (l seen : List Char), (dedupAux seen l).Nodup := by
  intro l
  induction l with
  | nil => intro seen; simp [dedupAux]
  | cons c rest ih =>
    intro seen
    by_cases hc : c ∈ seen
    · simpa [dedupAux, hc] using ih seen
    · rw [dedupAux, if_neg hc]
      refine List.nodup_cons.mpr ⟨?_, ih (c :: seen)⟩
      intro hmem
      exact dedupAux_not_mem_seen rest (c :: seen) c hmem (by simp)

/-- `dedupAux` yields a sublist: kept occurrences stay in order. -/
theorem dedupAux_sublist : ∀ (l seen : List Char), (dedupAux seen l).Sublist l := by
  intro l
  induction l with
  | nil => intro seen; simp [dedupAux]
  | cons c rest ih =>
    intro seen
    by_cases hc : c ∈ seen
    · rw [dedupAux, if_pos hc]
      exact (ih seen).cons c
    · rw [dedupAux, if_neg hc]
      exact (ih (c :: seen)).cons₂ c

/-- Membership in the output of `dedupAux`. -/
theorem dedupAux_mem :
    ∀ (l seen : List Char) (x : Char), x ∈ dedupAux seen l ↔ (x ∈ l ∧ x ∉ seen) := by
  intro l
  induction l with
  | nil => intro seen x; simp [dedupAux]
  | cons c rest ih =>
    intro seen x
    by_cases hc : c ∈ seen
    · rw [dedupAux, if_pos hc, ih]
      constructor
      · rintro ⟨h1, h2⟩; exact ⟨by simp [h1], h2⟩
      · rintro ⟨h1, h2⟩
        rcases List.mem_cons.mp h1 with rfl | h1'
        · exact absurd hc h2
        · exact ⟨h1', h2⟩
    · rw [dedupAux, if_neg hc]
      constructor
      · intro h
        rcases List.mem_cons.mp h with rfl | h'
        · exact ⟨by simp, hc⟩
        · obtain ⟨h1, h2⟩ := (ih (c :: seen) x).mp h'
          exact ⟨by simp [h1], fun hx => h2 (by simp [hx])⟩
      · rintro ⟨h1, h2⟩
        rcases List.mem_cons.mp h1 with rfl | h1'
        · simp
        · by_cases hxc : x = c
          · simp [hxc]
          · exact List.mem_cons_of_mem c
              ((ih (c :: seen) x).mpr ⟨h1', by simp [hxc, h2]⟩)

mutual

/-- A tree without a body element makes the append fail (`querySelector`
returns `null`). -/
theorem appendFirstBody_none (ns : List Node) :
    ∀ (n : Node), hasBody n = false → appendFirstBody ns n = none
  | .text _, _ => rfl
  | .elem tag attrs children, h => by
    unfold hasBody at h
    rw [Bool.or_eq_false_iff] at h
    have htag : ¬tag = bodyTag := by
      intro he
      rw [he] at h
      simp at h
    unfold appendFirstBody
    rw [if_neg htag, appendFirstBodyL_none ns children h.2]

/-- List version of `appendFirstBody_none`. -/
theorem appendFirstBodyL_none (ns : List Node) :
    ∀ (l : List Node), hasBodyL l = false → appendFirstBodyL ns l = none
  | [], _ => rfl
  | c :: rest, h => by
    unfold hasBodyL at h
    rw [Bool.or_eq_false_iff] at h
    unfold appendFirstBodyL
    rw [appendFirstBody_none ns c h.1, appendFirstBodyL_none ns rest h.2]

end

mutual

/-- A tree with a body element makes the append succeed. -/
theorem appendFirstBody_isSome (ns : List Node) :
    ∀ (n : Node), hasBody n = true → (appendFirstBody ns n).isSome = true
  | .elem tag attrs children, h => by
    unfold appendFirstBody
    by_cases htag : tag = bodyTag
    · rw [if_pos htag]; rfl
    · rw [if_neg htag]
      unfold hasBody at h
      rw [Bool.or_eq_true_iff] at h
      have hch : hasBodyL children = true := by
        rcases h with h1 | h2
        · exact absurd (of_decide_eq_true h1) htag
        · exact h2
      have := appendFirstBodyL_isSome ns children hch
      match hm : appendFirstBodyL ns children with
      | some l2 => rfl
      | none => rw [hm] at this; cases this

/-- List version of `appendFirstBody_isSome`. -/
theorem appendFirstBodyL_isSome (ns : List Node) :
    ∀ (l : List Node), hasBodyL l = true → (appendFirstBodyL ns l).isSome = true
  | c :: rest, h => by
    unfold appendFirstBodyL
    rcases Bool.eq_false_or_eq_true (hasBody c) with hc | hc
    · have := appendFirstBody_isSome ns c hc
      match hm : appendFirstBody ns c with
      | some c2 => rfl
      | none => rw [hm] at this; cases this
    · rw [appendFirstBody_none ns c hc]
      unfold hasBodyL at h
      rw [Bool.or_eq_true_iff] at h
      have hr : hasBodyL rest = true := by
        rcases h with h1 | h2
        · rw [hc] at h1; cases h1
        · exact h2
      have := appendFirstBodyL_isSome ns rest hr
      match hm : appendFirstBodyL ns rest with
      | some l2 => rfl
      | none => rw [hm] at this; cases this

end

mutual

/-- The computed append realizes the specification relation: the result is
the input with `ns` appended inside its first body element. -/
theorem appendFirstBody_appends (ns : List Node) :
    ∀ (n n2 : Node), appendFirstBody ns n = some n2 → BodyAppended ns n n2
  | .text _, _, h => by cases h
  | .elem tag attrs children, n2, h => by
    unfold appendFirstBody at h
    by_cases htag : tag = bodyTag
    · rw [if_pos htag] at h
      cases h
      subst htag
      exact BodyAppended.body attrs children
    · rw [if_neg htag] at h
      match hm : appendFirstBodyL ns children with
      | some children2 =>
        rw [hm] at h
        cases h
        exact BodyAppended.elem tag attrs children children2 htag
          (appendFirstBodyL_appends ns children children2 hm)
      | none => rw [hm] at h; cases h

/-- List version of `appendFirstBody_appends`. -/
theorem appendFirstBodyL_appends (ns : List Node) :
    ∀ (l l2 : List Node), appendFirstBodyL ns l = some l2 → BodyAppendedL ns l l2
  | c :: rest, l2, h => by
    unfold appendFirstBodyL at h
    match hm : appendFirstBody ns c with
    | some c2 =>
      rw [hm] at h
      cases h
      exact BodyAppendedL.head c c2 rest (appendFirstBody_appends ns c c2 hm)
    | none =>
      rw [hm] at h
      match hr : appendFirstBodyL ns rest with
      | some rest2 =>
        rw [hr] at h
        cases h
        have hc : hasBody c = false := by
          rcases Bool.eq_false_or_eq_true (hasBody c) with h1 | h1
          · have := appendFirstBody_isSome ns c h1
            rw [hm] at this; cases this
          · exact h1
        exact BodyAppendedL.tail c rest rest2 hc
          (appendFirstBodyL_appends ns rest rest2 hr)
      | none => rw [hr] at h; cases h

end

/-- `foldlM` of `addMiddleware` over config-supplied middlewares touches
only the middleware list: every other constructed field survives. -/
theorem foldlM_addMiddleware_fields (valid : List Char → Bool) :
    ∀ (l : List StackEntry) (s s2 : ServerState),
    l.foldlM (fun s x => addMiddleware valid s x.middleware x.route) s = .ok s2 →
    s2.host = s.host ∧ s2.port = s.port ∧ s2.directory = s.directory ∧
      s2.subfolder = s.subfolder ∧ s2.mimeTypes = s.mimeTypes := by
  intro l
  induction l with
  | nil =>
    intro s s2 h
    cases h
    exact ⟨rfl, rfl, rfl, rfl, rfl⟩
  | cons x rest ih =>
    intro s s2 h
    rw [List.foldlM_cons] at h
    match hm : addMiddleware valid s x.middleware x.route with
    | .error e => rw [hm] at h; cases h
    | .ok s1 =>
      rw [hm] at h
      have hfields : s1.host = s.host ∧ s1.port = s.port ∧ s1.directory = s.directory ∧
          s1.subfolder = s.subfolder ∧ s1.mimeTypes = s.mimeTypes := by
        unfold addMiddleware at hm
        match hc : compileRoute valid (x.route.getD ['*']) with
        | .error e => rw [hc] at hm; cases hm
        | .ok p =>
          rw [hc] at hm
          cases hm
          exact ⟨rfl, rfl, rfl, rfl, rfl⟩
      obtain ⟨h1, h2, h3, h4, h5⟩ := ih s1 s2 h
      exact ⟨h1.trans hfields.1, h2.trans hfields.2.1, h3.trans hfields.2.2.1,
        h4.trans hfields.2.2.2.1, h5.trans hfields.2.2.2.2⟩

/-- The `connectedBefore` flag after a sequence of events: set exactly when
a connection has occurred (or it was set to begin with). -/
theorem channel_foldl_flag :
    ∀ (es : List ChannelEvent) (s : ChannelState),
    (es.foldl channelStep s).connectedBefore =
      (s.connectedBefore || decide (ChannelEvent.connect ∈ es)) := by
  intro es
  induction es with
  | nil => intro s; simp
  | cons e rest ih =>
    intro s
    rw [List.foldl_cons, ih]
    cases e with
    | connect =>
      by_cases hc : s.connectedBefore
      · simp [channelStep, hc]
      · simp [channelStep, hc]
    | disconnect => simp [channelStep]
    | manualReload => simp [channelStep]

/-- The broadcast count after a sequence of events containing no manual
reload call: it grows by one exactly when the flag was still unset and a
connection occurred. -/
theorem channel_foldl_broadcasts :
    ∀ (es : List ChannelEvent) (s : ChannelState),
    ChannelEvent.manualReload ∉ es →
    (es.foldl channelStep s).broadcasts =
      s.broadcasts + (if s.connectedBefore = false ∧ ChannelEvent.connect ∈ es then 1 else 0) := by
  intro es
  induction es with
  | nil => intro s _; simp
  | cons e rest ih =>
    intro s hm
    have hmr : ChannelEvent.manualReload ∉ rest := fun hx => hm (by simp [hx])
    rw [List.foldl_cons]
    cases e with
    | connect =>
      rcases Bool.eq_false_or_eq_true s.connectedBefore with hc | hc
      · have hstep : channelStep s .connect = s := by simp [channelStep, hc]
        rw [hstep, ih _ hmr]
        simp [hc]
      · have hstep : channelStep s .connect =
            { connectedBefore := true, broadcasts := s.broadcasts + 1 } := by
          simp [channelStep, hc]
        rw [hstep, ih _ hmr]
        simp [hc]
    | disconnect =>
      have hstep : channelStep s .disconnect = s := rfl
      rw [hstep, ih _ hmr]
      simp
    | manualReload => exact absurd (by simp) hm

/-- The dispatch-level dichotomy: the chain was stopped (some executed
handler ended its iteration with the continuation unset) exactly when the
static file resolver is not invoked. -/
theorem dispatch_flag (ms : List HandlerRun) :
    (∃ h ∈ (dispatch ms).executed, h.callsNext = false) ↔
      (dispatch ms).defaultInvoked = false := by
  cases ms with
  | nil => simp [dispatch, runChain]
  | cons h rest =>
    have hrf := runChain_flag (h :: rest)
    simp only [dispatch, List.isEmpty_cons, Bool.false_or]
    exact hrf

/-- Route compilation fails exactly on engine rejection of the body it
hands over (`routeBody`); `'*'` never consults the engine. -/
theorem compileRoute_error_valid (valid : List Char → Bool) (r : List Char) :
    (compileRoute valid r = .error () → valid (routeBody r) = false)
    ∧ (valid (routeBody r) = true → ∃ p, compileRoute valid r = .ok p) := by
  by_cases hstar : r = ['*']
  · subst hstar
    constructor
    · intro h
      simp [compileRoute] at h
    · intro _
      exact ⟨.matchAll, by simp [compileRoute]⟩
  · cases r with
    | nil =>
      rcases Bool.eq_false_or_eq_true (valid []) with hv | hv
      · constructor
        · intro h
          simp [compileRoute, hv] at h
        · intro _
          exact ⟨.compiled [] [], by simp [compileRoute, hv]⟩
      · constructor
        · intro _
          simpa [routeBody] using hv
        · intro h
          simp [routeBody] at h
          rw [h] at hv
          cases hv
    | cons c rest =>
      by_cases hcd : c ∈ delims
      · match hsp : splitBody c rest with
        | some p =>
          rcases Bool.eq_false_or_eq_true (valid p.1) with hv | hv
          · constructor
            · intro h
              simp [compileRoute, hstar, hcd, hsp, hv] at h
            · intro _
              exact ⟨.compiled p.1 (dedupFirst p.2),
                by simp [compileRoute, hstar, hcd, hsp, hv]⟩
          · constructor
            · intro _
              simpa [routeBody, hcd, hsp] using hv
            · intro h
              rw [show routeBody (c :: rest) = p.1 by simp [routeBody, hcd, hsp]] at h
              rw [h] at hv
              cases hv
        | none =>
          rcases Bool.eq_false_or_eq_true (valid (c :: rest)) with hv | hv
          · constructor
            · intro h
              simp [compileRoute, hstar, hcd, hsp, hv] at h
            · intro _
              exact ⟨.compiled (c :: rest) [],
                by simp [compileRoute, hstar, hcd, hsp, hv]⟩
          · constructor
            · intro _
              simpa [routeBody, hcd, hsp] using hv
            · intro h
              rw [show routeBody (c :: rest) = c :: rest by simp [routeBody, hcd, hsp]] at h
              rw [h] at hv
              cases hv
      · rcases Bool.eq_false_or_eq_true (valid (c :: rest)) with hv | hv
        · constructor
          · intro h
            simp [compileRoute, hstar, hcd, hv] at h
          · intro _
            exact ⟨.compiled (c :: rest) [],
              by simp [compileRoute, hstar, hcd, hv]⟩
        · constructor
          · intro _
            simpa [routeBody, hcd] using hv
          · intro h
            rw [show routeBody (c :: rest) = c :: rest by simp [routeBody, hcd]] at h
            rw [h] at hv
            cases hv

/-! ## Claim theorems -/

/-- C1 (amended): per request, exactly one of {the dispatch loop is stopped
by a matched handler whose iteration ends with the continuation not
invoked, the Static File Resolver is invoked} occurs; the dichotomy is
decided by the continuation flag alone, not by whether handlers wrote or
sent responses. -/
theorem handleRequest_stop_iff_no_default
    (eng : List Char → List Char → List Char → Bool)
    (mws : List Mw) (url : List Char) :
    (∃ h ∈ (handleRequest eng mws url).executed, h.callsNext = false) ↔
      (handleRequest eng mws url).defaultInvoked = false :=
  dispatch_flag _

/-- C1 counterexample to the claim as stated: a single matched handler that
neither sends a response nor invokes the continuation executes, no executed
handler leaves the response in a sent state, and the Static File Resolver
is not invoked either — "never neither" fails. -/
theorem handleRequest_sent_dichotomy_fails :
    (handleRequest (fun _ _ _ => false)
        [⟨.matchAll, ⟨false, false, false⟩⟩] ("/x".data)).executed.length = 1
    ∧ ((handleRequest (fun _ _ _ => false)
        [⟨.matchAll, ⟨false, false, false⟩⟩] ("/x".data)).executed.any
          (fun h => h.sends)) = false
    ∧ (handleRequest (fun _ _ _ => false)
        [⟨.matchAll, ⟨false, false, false⟩⟩] ("/x".data)).defaultInvoked = false := by
  decide

/-- C2 (amended): when the handler at some position of the matched sequence
raises or rejects, its failure is logged (the dispatcher catches the
rejection, so nothing reaches the transport layer); if the handler had not
invoked the continuation before failing, no later handler runs and the
Static File Resolver is not invoked, the executed handlers being exactly
the ones up to and including the failing one. -/
theorem dispatch_handler_failure (pre : List HandlerRun) (h : HandlerRun)
    (post : List HandlerRun)
    (hpre : ∀ g ∈ pre, g.callsNext = true) (hthrows : h.throws = true) :
    h ∈ (dispatch (pre ++ h :: post)).logged
    ∧ (h.callsNext = false →
        (dispatch (pre ++ h :: post)).executed = pre ++ [h]
        ∧ (dispatch (pre ++ h :: post)).defaultInvoked = false) := by
  have hrc := runChain_append pre (h :: post) hpre
  constructor
  · apply List.mem_filter.mpr
    refine ⟨?_, by simpa using hthrows⟩
    show h ∈ (runChain (pre ++ h :: post)).1
    rw [hrc]
    rcases Bool.eq_false_or_eq_true h.callsNext with hc | hc
    · rw [runChain_cons_true hc]
      exact List.mem_append.mpr (Or.inr (by simp))
    · rw [runChain_cons_false hc]
      exact List.mem_append.mpr (Or.inr (by simp))
  · intro hc
    rw [runChain_cons_false hc] at hrc
    constructor
    · show (runChain (pre ++ h :: post)).1 = pre ++ [h]
      rw [hrc]
    · show ((pre ++ h :: post).isEmpty || (runChain (pre ++ h :: post)).2) = false
      rw [hrc]
      simp

/-- Witness for C2 at a concrete input: a first handler that continues, a
second that fails without invoking the continuation, a third never
reached. -/
theorem dispatch_handler_failure_witness :
    (⟨false, true, false⟩ : HandlerRun) ∈
      (dispatch ([⟨true, false, false⟩] ++ ⟨false, true, false⟩ :: [⟨true, false, true⟩])).logged
    ∧ (dispatch ([⟨true, false, false⟩] ++ ⟨false, true, false⟩ :: [⟨true, false, true⟩])).executed
        = [⟨true, false, false⟩] ++ [⟨false, true, false⟩]
    ∧ (dispatch ([⟨true, false, false⟩] ++ ⟨false, true, false⟩ :: [⟨true, false, true⟩])).defaultInvoked
        = false := by
  have t := dispatch_handler_failure [⟨true, false, false⟩] ⟨false, true, false⟩
    [⟨true, false, true⟩] (by decide) rfl
  exact ⟨t.1, (t.2 rfl).1, (t.2 rfl).2⟩

/-- C2 counterexample to the claim as stated: a handler that invokes the
continuation and then throws does not halt the chain — the next handler
runs and the Static File Resolver is invoked. -/
theorem dispatch_throw_after_next_continues :
    (⟨true, true, false⟩ : HandlerRun).throws = true
    ∧ (dispatch [⟨true, true, false⟩, ⟨true, false, true⟩]).executed
        = [⟨true, true, false⟩, ⟨true, false, true⟩]
    ∧ (dispatch [⟨true, true, false⟩, ⟨true, false, true⟩]).defaultInvoked = true := by
  decide

/-- C7: the first client connection ever triggers exactly one reload
broadcast and sets the `connectedBefore` flag; later connections trigger
none (over traces without manual reload calls, which broadcast separately),
and the flag, once set, survives every further event. -/
theorem channel_first_connect (es : List ChannelEvent) :
    ((channelRun es).connectedBefore = true ↔ ChannelEvent.connect ∈ es)
    ∧ (ChannelEvent.manualReload ∉ es →
        (channelRun es).broadcasts = if ChannelEvent.connect ∈ es then 1 else 0)
    ∧ (∀ extra : List ChannelEvent, (channelRun es).connectedBefore = true →
        (channelRun (es ++ extra)).connectedBefore = true) := by
  refine ⟨?_, ?_, ?_⟩
  · unfold channelRun
    rw [channel_foldl_flag]
    simp
  · intro hm
    unfold channelRun
    rw [channel_foldl_broadcasts es _ hm]
    simp
  · intro extra h
    unfold channelRun at h ⊢
    rw [List.foldl_append, channel_foldl_flag, h]
    simp

/-- Witness for C7 at a concrete trace: two connections and a disconnect
produce exactly one broadcast. -/
theorem channel_first_connect_witness :
    (channelRun [ChannelEvent.connect, ChannelEvent.disconnect, ChannelEvent.connect]).broadcasts
      = if ChannelEvent.connect ∈
          [ChannelEvent.connect, ChannelEvent.disconnect, ChannelEvent.connect] then 1 else 0 :=
  (channel_first_connect _).2.1 (by decide)

/-- C3 (amended): route compilation is a function of the spec alone, fixed
at registration time.  `'*'` yields the matcher accepting every path
(including the empty one); a delimited spec `<delim><body><delim><flags>`
whose body contains no line-terminator character (the lazy `.` of the
delimiter pattern cannot cross one) and is accepted by the engine yields
the regular expression `<body>` with the flags deduplicated keeping first
occurrences in order; every other accepted string yields the regular
expression built from the whole string with no flags. -/
theorem compileRoute_cases (valid : List Char → Bool) :
    (compileRoute valid ['*'] = .ok .matchAll
      ∧ ∀ (eng : List Char → List Char → List Char → Bool) (s : List Char),
          patternTest eng .matchAll s = true)
    ∧ (∀ (d : Char) (body flags : List Char), d ∈ delims →
        (∀ c ∈ body, isLineTerm c = false) → (∀ c ∈ flags, c ∈ flagChars) →
        valid body = true →
        compileRoute valid (d :: (body ++ d :: flags)) =
          .ok (.compiled body (dedupFirst flags)))
    ∧ (∀ s : List Char, s ≠ ['*'] →
        (¬ ∃ d body flags, d ∈ delims ∧ s = d :: (body ++ d :: flags)
          ∧ (∀ c ∈ body, isLineTerm c = false) ∧ (∀ c ∈ flags, c ∈ flagChars)) →
        valid s = true →
        compileRoute valid s = .ok (.compiled s []))
    ∧ (∀ l : List Char, (dedupFirst l).Nodup ∧ (dedupFirst l).Sublist l
        ∧ ∀ c : Char, c ∈ dedupFirst l ↔ c ∈ l) := by
  refine ⟨⟨by simp [compileRoute], fun _ _ => rfl⟩, ?_, ?_, ?_⟩
  · intro d body flags hd hb hf hv
    have hne : d :: (body ++ d :: flags) ≠ ['*'] := by simp
    simp [compileRoute, hne, hd, splitBody_complete d hd body flags hb hf, hv]
  · intro s hs hnex hv
    cases s with
    | nil => simp [compileRoute, hv]
    | cons c rest =>
      by_cases hcd : c ∈ delims
      · match hsp : splitBody c rest with
        | some p =>
          exfalso
          obtain ⟨he, hb, hf⟩ := splitBody_sound c rest p.1 p.2 (by rw [hsp])
          exact hnex ⟨c, p.1, p.2, hcd, by rw [he], hb, hf⟩
        | none => simp [compileRoute, hs, hcd, hsp, hv]
      · simp [compileRoute, hs, hcd, hv]
  · intro l
    refine ⟨dedupAux_nodup l [], dedupAux_sublist l [], fun c => ?_⟩
    rw [dedupFirst, dedupAux_mem]
    simp

/-- Witness for C3 at concrete route specs: `/a/gig` compiles to body `a`
with flags deduplicated to `gi`, and the undelimited `abc` compiles
whole-string with no flags. -/
theorem compileRoute_cases_witness :
    compileRoute (fun _ => true) ('/' :: (("a".data) ++ '/' :: ("gig".data)))
      = .ok (.compiled ("a".data) (dedupFirst ("gig".data)))
    ∧ dedupFirst ("gig".data) = "gi".data
    ∧ compileRoute (fun _ => true) ("abc".data) = .ok (.compiled ("abc".data) []) := by
  refine ⟨(compileRoute_cases (fun _ => true)).2.1 '/' ("a".data) ("gig".data)
      (by decide) (by decide) (by decide) rfl, by decide,
    (compileRoute_cases (fun _ => true)).2.2.1 ("abc".data) (by decide) ?_ rfl⟩
  rintro ⟨d, body, flags, hd, he, -, -⟩
  have hda : d = 'a' := (List.cons_eq_cons.mp he.symm).1
  rw [hda] at hd
  exact absurd hd (by decide)

/-- C3 counterexample to the claim as stated: the spec `/\n/` has the
delimited form (delimiter `/`, body the newline, no flags), yet the
engine's `.` cannot match the newline, so the whole string becomes the
regular expression and the body-with-flags reading does not. -/
theorem compileRoute_linebreak_body :
    ('/' ∈ delims)
    ∧ (['/', '\n', '/'] = '/' :: (['\n'] ++ '/' :: ([] : List Char)))
    ∧ compileRoute (fun _ => true) ['/', '\n', '/'] = .ok (.compiled ['/', '\n', '/'] [])
    ∧ (Pattern.compiled ['/', '\n', '/'] [] ≠ Pattern.compiled ['\n'] []) :=
  ⟨by decide, by decide, by rfl, by decide⟩

/-- C9: registration fails synchronously exactly on engine rejection of
the compiled body — the error propagates to the caller and no entry is
appended (the middleware list is only written on success) — and each
successful registration appends exactly one entry at the end, leaving all
existing entries and every other server field untouched. -/
theorem addMiddleware_contract (valid : List Char → Bool) (st : ServerState)
    (mw : HandlerRun) (routeArg : Option (List Char)) :
    (∀ p, compileRoute valid (routeArg.getD ['*']) = .ok p →
        addMiddleware valid st mw routeArg =
          .ok { st with middlewares := st.middlewares ++ [⟨p, mw⟩] })
    ∧ (compileRoute valid (routeArg.getD ['*']) = .error () →
        addMiddleware valid st mw routeArg = .error ())
    ∧ (addMiddleware valid st mw routeArg = .error () →
        valid (routeBody (routeArg.getD ['*'])) = false)
    ∧ (valid (routeBody (routeArg.getD ['*'])) = true →
        ∃ p, addMiddleware valid st mw routeArg =
          .ok { st with middlewares := st.middlewares ++ [⟨p, mw⟩] }) := by
  refine ⟨?_, ?_, ?_, ?_⟩
  · intro p h
    unfold addMiddleware
    rw [h]
  · intro h
    unfold addMiddleware
    rw [h]
  · intro herr
    match hc : compileRoute valid (routeArg.getD ['*']) with
    | .ok p =>
      unfold addMiddleware at herr
      rw [hc] at herr
      cases herr
    | .error e =>
      exact (compileRoute_error_valid valid (routeArg.getD ['*'])).1 hc
  · intro hval
    obtain ⟨p, hp⟩ := (compileRoute_error_valid valid (routeArg.getD ['*'])).2 hval
    exact ⟨p, by unfold addMiddleware; rw [hp]⟩

/-- Witness for C9 with a toy engine rejecting the body `(`: registering
route `/(/` fails and registering route `/config` appends one entry. -/
theorem addMiddleware_contract_witness :
    addMiddleware (fun b => decide (b ≠ ("(".data)))
        { host := none, port := none, directory := none, subfolder := none,
          mimeTypes := none, middlewares := [], connectedBefore := false }
        ⟨true, false, false⟩ (some ('/' :: '(' :: ['/'])) = .error ()
    ∧ addMiddleware (fun b => decide (b ≠ ("(".data)))
        { host := none, port := none, directory := none, subfolder := none,
          mimeTypes := none, middlewares := [], connectedBefore := false }
        ⟨true, false, false⟩ (some ("/config".data))
      = .ok { host := none, port := none, directory := none,
              subfolder := none, mimeTypes := none,
              middlewares := [⟨.compiled ("/config".data) [], ⟨true, false, false⟩⟩],
              connectedBefore := false } := by
  constructor
  · exact (addMiddleware_contract _ _ _ _).2.1 (by rfl)
  · exact (addMiddleware_contract _ _ _ _).1 (.compiled ("/config".data) []) (by rfl)

/-- Destructing a successful `Except.map`. -/
theorem except_map_ok {α β : Type} (f : α → β) (e : Except Unit α) (b : β)
    (h : e.map f = .ok b) : ∃ a, e = .ok a ∧ b = f a := by
  cases e with
  | error e => cases h
  | ok a =>
    refine ⟨a, rfl, ?_⟩
    cases h
    rfl

/-- With a config supplied, the constructed host/port/directory are the
config values subjected to the `x || default` fallback. -/
theorem mkServer_some_fields (valid : List Char → Bool) (c : Config)
    (st : ServerState) (h : mkServer valid (some c) = .ok st) :
    st.host = some (strDefault c.host ("localhost".data))
    ∧ st.port = some (natDefault c.port 62295)
    ∧ st.directory = some (strDefault c.directory ("site".data)) := by
  simp only [mkServer] at h
  obtain ⟨st1, hE, hst⟩ := except_map_ok _ _ _ h
  obtain ⟨h1, h2, h3, -, -⟩ := foldlM_addMiddleware_fields valid _ _ _ hE
  subst hst
  exact ⟨h1, h2, h3⟩

/-- C4 (amended): whenever the candidate filesystem path has no entry at
all (the `stat` call rejects), the resolver responds with status 404,
content type `text/html`, and the fixed "Page not found" document. -/
theorem defaultHandler_missing_404 (parse : List Char → Node)
    (fs : List (List Char × FsEntry)) (mimes : List MimeType)
    (sub : Option (List Char)) (dir p : List Char) (sock : Bool)
    (h : lookupFs fs (candidatePath sub dir p) = none) :
    defaultHandler parse fs mimes sub dir p sock = notFoundResponse := by
  unfold defaultHandler
  rw [h]

/-- Witness for C4 on the empty filesystem. -/
theorem defaultHandler_missing_404_witness :
    defaultHandler (fun _ => .text []) [] [] none ("site".data)
        ("/missing.html".data) true = notFoundResponse :=
  defaultHandler_missing_404 _ _ _ _ _ _ _ rfl

/-- C4 counterexample to the claim as stated: a candidate path that exists
but is a directory — hence does not resolve to a regular file — is not
answered with 404: `stat` succeeds, the read rejects, and the outer catch
produces a 500 page. -/
theorem defaultHandler_directory_500 :
    lookupFs [((candidatePath none ("site".data) ("/d".data)), FsEntry.dir)]
        (candidatePath none ("site".data) ("/d".data)) = some FsEntry.dir
    ∧ (defaultHandler (fun _ => .text [])
        [((candidatePath none ("site".data) ("/d".data)), FsEntry.dir)]
        [] none ("site".data) ("/d".data) true).status = 500
    ∧ notFoundResponse.status = 404 :=
  ⟨rfl, rfl, rfl⟩

/-- C5: the merge maps the base table entrywise — an entry with a matching
addition gains that addition's extensions appended after its own, an entry
with no matching addition passes through unchanged — and every merged
entry descends from a base entry (so an addition whose type matches no
base entry contributes nothing). -/
theorem mergedMimeTypes_spec (adds base : List MimeType) :
    (mergedMimeTypes adds base).length = base.length
    ∧ (∀ (i : Nat) (b : MimeType), base[i]? = some b →
        ((∃ a ∈ adds, a.type = b.type) →
          ∃ a ∈ adds, a.type = b.type ∧
            (mergedMimeTypes adds base)[i]? =
              some { b with extensions := b.extensions ++ a.extensions })
        ∧ ((∀ a ∈ adds, a.type ≠ b.type) →
            (mergedMimeTypes adds base)[i]? = some b))
    ∧ (∀ e ∈ mergedMimeTypes adds base, ∃ b ∈ base, b.type = e.type ∧ b.name = e.name) := by
  refine ⟨by simp [mergedMimeTypes], ?_, ?_⟩
  · intro i b hb
    have hmap : (mergedMimeTypes adds base)[i]? = some (mergeEntry adds b) := by
      rw [mergedMimeTypes, List.getElem?_map, hb, Option.map_some']
    constructor
    · rintro ⟨a0, ha0, hta0⟩
      have hsome : (adds.find? (fun item => item.type = b.type)).isSome := by
        rw [List.find?_isSome]
        exact ⟨a0, ha0, by simp [hta0]⟩
      match hf : adds.find? (fun item => item.type = b.type) with
      | none => rw [hf] at hsome; cases hsome
      | some a =>
        have hpa : a.type = b.type := by
          have := List.find?_some hf
          simpa using this
        refine ⟨a, List.mem_of_find?_eq_some hf, hpa, ?_⟩
        rw [hmap, mergeEntry, hf]
    · intro hnone
      have hf : adds.find? (fun item => item.type = b.type) = none := by
        rw [List.find?_eq_none]
        intro a ha
        simpa using hnone a ha
      rw [hmap, mergeEntry, hf]
  · intro e he
    rw [mergedMimeTypes] at he
    obtain ⟨b, hb, he2⟩ := List.mem_map.mp he
    refine ⟨b, hb, ?_, ?_⟩ <;> rw [← he2, mergeEntry] <;>
      cases adds.find? (fun item => item.type = b.type) <;> rfl

/-- Witness for C5 on the spec's example: base `text/css` with extension
`css` plus an addition `text/css` with extension `scss` merges to
`["css", "scss"]`. -/
theorem mergedMimeTypes_spec_witness :
    (mergedMimeTypes [⟨"text/css".data, "scss".data, [("scss".data)]⟩]
        [⟨"text/css".data, "css".data, [("css".data)]⟩])[0]? =
      some ⟨"text/css".data, "css".data, [("css".data), ("scss".data)]⟩ := by
  obtain ⟨a, ha, -, hm⟩ :=
    ((mergedMimeTypes_spec [⟨"text/css".data, "scss".data, [("scss".data)]⟩]
        [⟨"text/css".data, "css".data, [("css".data)]⟩]).2.1 0
      ⟨"text/css".data, "css".data, [("css".data)]⟩ rfl).1 (by decide)
  simp only [List.mem_singleton] at ha
  subst ha
  exact hm

/-- C6: a document containing a body element is injected with exactly the
two script elements (client-library loader, inline reload subscriber)
appended at the end of its first body, all other content preserved
(`BodyAppended`); a document with no body element makes injection fail,
and the resolver then serves the original bytes unchanged with status
200. -/
theorem socketInjection_contract :
    (∀ doc : Node, hasBody doc = true →
        ∃ doc2, socketInjection doc = some doc2
          ∧ BodyAppended injectedScripts doc doc2)
    ∧ (∀ doc : Node, hasBody doc = false → socketInjection doc = none)
    ∧ (∀ (parse : List Char → Node) (fs : List (List Char × FsEntry))
        (mimes : List MimeType) (sub : Option (List Char)) (dir p contents : List Char),
        lookupFs fs (candidatePath sub dir p) = some (.file contents) →
        resolveMime mimes (resolvedUrl sub dir p) = "text/html".data →
        socketInjection (parse contents) = none →
        defaultHandler parse fs mimes sub dir p true =
          { status := 200, contentType := some ("text/html".data), body := contents }) := by
  refine ⟨?_, ?_, ?_⟩
  · intro doc h
    have hs := appendFirstBody_isSome injectedScripts doc h
    match hm : appendFirstBody injectedScripts doc with
    | some doc2 =>
      exact ⟨doc2, by rw [socketInjection, hm],
        appendFirstBody_appends injectedScripts doc doc2 hm⟩
    | none => rw [hm] at hs; cases hs
  · intro doc h
    rw [socketInjection]
    exact appendFirstBody_none injectedScripts doc h
  · intro parse fs mimes sub dir p contents hlk hmime hinj
    unfold defaultHandler
    rw [hlk]
    simp [hmime, hinj]

/-- Witness for C6: a minimal document with a body gains the two scripts,
a bare text node has no body and injection fails, and a served `text/html`
file whose parse has no body comes back byte-identical with status 200. -/
theorem socketInjection_contract_witness :
    (∃ doc2, socketInjection (Node.elem bodyTag [] []) = some doc2
        ∧ BodyAppended injectedScripts (Node.elem bodyTag [] []) doc2)
    ∧ socketInjection (Node.text ("x".data)) = none
    ∧ defaultHandler (fun _ => Node.text ("x".data))
        [((candidatePath none ("site".data) ("/i.html".data)), FsEntry.file ("hi".data))]
        [] none ("site".data) ("/i.html".data) true
      = { status := 200, contentType := some ("text/html".data), body := ("hi".data) } :=
  ⟨socketInjection_contract.1 _ (by decide),
   socketInjection_contract.2.1 _ rfl,
   socketInjection_contract.2.2 _ _ _ _ _ _ _ rfl rfl rfl⟩

/-- C8 (code evidence): with no config argument, the constructor's guarded
block is skipped, so host, port, directory and the MIME additions stay
unset rather than taking the documented defaults; only the middleware
list initializer runs. -/
theorem mkServer_no_config :
    mkServer (fun _ => true) none =
      .ok { host := none, port := none, directory := none, subfolder := none,
            mimeTypes := none, middlewares := [], connectedBefore := false }
    ∧ (none : Option (List Char)) ≠ some ("localhost".data)
    ∧ (none : Option Nat) ≠ some 62295
    ∧ (none : Option (List Char)) ≠ some ("site".data) :=
  ⟨rfl, by simp, by simp, by simp⟩

/-- C10: with a config object supplied, a falsy host, port, or directory
(omitted, empty string, or port 0) is silently replaced by its default,
exactly as when omitted. -/
theorem mkServer_falsy_defaults (valid : List Char → Bool) (c : Config)
    (st : ServerState) (h : mkServer valid (some c) = .ok st) :
    ((c.host = none ∨ c.host = some []) → st.host = some ("localhost".data))
    ∧ ((c.port = none ∨ c.port = some 0) → st.port = some 62295)
    ∧ ((c.directory = none ∨ c.directory = some []) →
        st.directory = some ("site".data)) := by
  obtain ⟨h1, h2, h3⟩ := mkServer_some_fields valid c st h
  refine ⟨?_, ?_, ?_⟩
  · rintro (hc | hc) <;> rw [h1, hc] <;> rfl
  · rintro (hc | hc) <;> rw [h2, hc] <;> rfl
  · rintro (hc | hc) <;> rw [h3, hc] <;> rfl

/-- Witness for C10: empty host, port 0 and empty directory all fall back
to their defaults. -/
theorem mkServer_falsy_defaults_witness :
    ({ host := some ("localhost".data), port := some 62295,
          directory := some ("site".data), subfolder := none,
          mimeTypes := some [], middlewares := [],
          connectedBefore := false } : ServerState).host = some ("localhost".data)
    ∧ ({ host := some ("localhost".data), port := some 62295,
          directory := some ("site".data), subfolder := none,
          mimeTypes := some [], middlewares := [],
          connectedBefore := false } : ServerState).port = some 62295
    ∧ ({ host := some ("localhost".data), port := some 62295,
          directory := some ("site".data), subfolder := none,
          mimeTypes := some [], middlewares := [],
          connectedBefore := false } : ServerState).directory = some ("site".data) :=
  have t := mkServer_falsy_defaults (fun _ => true)
    { host := some [], port := some 0, subfolder := none, middlewares := none,
      directory := some [], additionalMimeTypes := none }
    { host := some ("localhost".data), port := some 62295,
      directory := some ("site".data), subfolder := none,
      mimeTypes := some [], middlewares := [], connectedBefore := false } rfl
  ⟨t.1 (Or.inr rfl), t.2.1 (Or.inr rfl), t.2.2 (Or.inr rfl)⟩

end ParvusServer
